import Mathlib

/-!
Shallow embedding of the multiplayer room coordinator of wiki-journey
(the socket module: `setupSocket`), together with proofs about its
event handlers.

Modelling conventions:
* JS `Record<string, T>` objects are association lists `List (String × T)`;
  assignment `m[k] = v` updates the entry in place when the key exists and
  appends otherwise (`insertA`), matching JS property-update/insert order.
* `Math.random()`-derived data (room codes, generated-name indices) are
  passed in as parameters.
* `socket.id` is the `sid : String` parameter of each handler.
* Each handler returns the new registry together with the list of emitted
  broadcasts; `io.to(roomId)` reaches every member of `room.players`
  (exactly the sockets that called `socket.join(roomId)` and have not
  disconnected), `socket.to(roomId)` reaches every member except the sender.
* The `game_win` handler dereferences `room.playerStates[socket.id].name`
  without a guard, so it is modelled in `Except`: `.error` marks the
  `TypeError` thrown when the sender has no `PlayerState` entry.
* Player `clicks` are JS numbers supplied by the client; they are modelled
  as `Int` (the server applies no constraint to them).
-/

/-- One player's race state (`interface PlayerState`). -/
structure PlayerState where
  id : String
  name : String
  clicks : Int
  currentArticle : String
  history : List String
deriving Repr, DecidableEq

/-- Room lifecycle state (`"waiting" | "playing" | "finished"`). -/
inductive GState where
  | waiting
  | playing
  | finished
deriving Repr, DecidableEq

/-- A room (`interface Room`); `startArticle`/`targetArticle` are optional
until the first `start_game`. -/
structure Room where
  id : String
  players : List String
  gameState : GState
  startArticle : Option String := none
  targetArticle : Option String := none
  playerStates : List (String × PlayerState)
deriving Repr, DecidableEq

/-- The process-wide registry `const rooms: Record<string, Room> = {}`. -/
abbrev ServerState := List (String × Room)

/-- JS object read `m[k]`: the value at the first matching key, if any. -/
def lookupA {α : Type} (m : List (String × α)) (k : String) : Option α :=
  match m with
  | [] => none
  | (k', v) :: rest => if k' = k then some v else lookupA rest k

/-- JS object write `m[k] = v`: replace in place when present, append when
absent (on the key-unique lists the program builds, this is JS semantics). -/
def insertA {α : Type} (m : List (String × α)) (k : String) (v : α) :
    List (String × α) :=
  match m with
  | [] => [(k, v)]
  | (k', v') :: rest => if k' = k then (k, v) :: rest else (k', v') :: insertA rest k v

/-- The closed adjective vocabulary (`ADJECTIVES`). -/
def ADJECTIVES : List String :=
  ["Neon", "Cyber", "Mega", "Super", "Ultra", "Quantum", "Pixel", "Techno", "Retro", "Binary"]

/-- The closed animal vocabulary (`ANIMALS`). -/
def ANIMALS : List String :=
  ["Fox", "Owl", "Wolf", "Bear", "Cat", "Dog", "Hawk", "Eagle", "Shark", "Dragon"]

/-- Embeds `generateName()`: pairs a random adjective with a random animal;
the two random draws `Math.floor(Math.random() * len)` are passed as `i`, `j`. -/
def generateName (i j : Nat) : String :=
  ((ADJECTIVES.get? (i % ADJECTIVES.length)).getD "") ++ " " ++
    ((ANIMALS.get? (j % ANIMALS.length)).getD "")

/-- The name actually stored: `username || generateName()`. A JS string is
falsy exactly when it is empty, so any non-empty string is kept verbatim. -/
def resolveName (username gen : String) : String :=
  if username = "" then gen else username

/-- Read a roster member's display name, `room.playerStates[pid].name`.
The source dereferences without a guard at the call sites that use this
(join/disconnect roster listings); those sites only reach players that hold
an entry, which the membership invariant below establishes, so the `getD`
default is never observable from a reachable state. -/
def nameOf (room : Room) (pid : String) : String :=
  ((lookupA room.playerStates pid).map PlayerState.name).getD ""

/-- Payload of an outbound socket event. -/
inductive Payload where
  | playerJoined (players : List (String × String))
  | gameStarted (start target : String)
  | opponentProgress (playerId name currentArticle : String) (clicks : Int)
  | playerWon (winnerId winnerName : String) (path : List String)
  | playerLeft (playerId : String) (players : List (String × String))
  | resetToLobby
deriving Repr, DecidableEq

/-- One emitted broadcast: which sockets receive it and what it carries. -/
structure Emit where
  recipients : List String
  payload : Payload
deriving Repr, DecidableEq

/-- Acknowledgement sent to the caller of `join_room`. -/
inductive JoinResult where
  | error (msg : String)
  | success (roomId : String) (players : List (String × String))
deriving Repr, DecidableEq

/-- Acknowledgement sent to the caller of `create_room`. -/
structure CreateResult where
  roomId : String
  players : List (String × String)
deriving Repr, DecidableEq

/-- The `create_room` handler: unconditionally installs a fresh one-member
room under the drawn code `roomId` and acknowledges the creator. -/
def createRoom (st : ServerState) (sid username roomId : String) (i j : Nat) :
    ServerState × CreateResult :=
  let playerName := resolveName username (generateName i j)
  let room : Room :=
    { id := roomId
      players := [sid]
      gameState := .waiting
      playerStates := [(sid, ⟨sid, playerName, 0, "", []⟩)] }
  (insertA st roomId room, ⟨roomId, [(sid, playerName)]⟩)

/-- The `join_room` handler: three guarded rejections (unknown code, game
already started, room full), otherwise append the member, record a fresh
`PlayerState`, acknowledge the caller with the full roster and broadcast
`player_joined` to the room. -/
def joinRoom (st : ServerState) (sid roomId username : String) (i j : Nat) :
    ServerState × JoinResult × List Emit :=
  match lookupA st roomId with
  | none => (st, .error "Room not found", [])
  | some room =>
    if room.gameState ≠ .waiting then
      (st, .error "Game already started", [])
    else if 8 ≤ room.players.length then
      (st, .error "Room is full", [])
    else
      let playerName := resolveName username (generateName i j)
      let players' := room.players ++ [sid]
      let room' : Room :=
        { room with
            players := players'
            playerStates := insertA room.playerStates sid ⟨sid, playerName, 0, "", []⟩ }
      let allPlayers := players'.map (fun pid => (pid, nameOf room' pid))
      (insertA st roomId room', .success roomId allPlayers,
        [⟨players', .playerJoined allPlayers⟩])

/-- The per-player reset performed by `start_game`. -/
def resetPS (start : String) (ps : PlayerState) : PlayerState :=
  { ps with clicks := 0, currentArticle := start, history := [start] }

/-- Embeds the reset loop
`room.players.forEach(pid => if (room.playerStates[pid]) ...reset... )`. -/
def resetStates (players : List String) (start : String)
    (m : List (String × PlayerState)) : List (String × PlayerState) :=
  players.foldl
    (fun acc pid =>
      match lookupA acc pid with
      | some ps => insertA acc pid (resetPS start ps)
      | none => acc)
    m

/-- The `start_game` handler: no-op when the room is unknown or has fewer
than 2 players; otherwise store the articles, set `playing`, reset every
member's stats and broadcast `game_started` to the room. It never inspects
the current `gameState`. -/
def startGame (st : ServerState) (roomId start target : String) :
    ServerState × List Emit :=
  match lookupA st roomId with
  | none => (st, [])
  | some room =>
    if room.players.length < 2 then (st, [])
    else
      let room' : Room :=
        { room with
            startArticle := some start
            targetArticle := some target
            gameState := .playing
            playerStates := resetStates room.players start room.playerStates }
      (insertA st roomId room', [⟨room.players, .gameStarted start target⟩])

/-- The `update_progress` handler: no-op unless the room exists, is
`playing` and the sender has a `PlayerState`; otherwise overwrite the
sender's `currentArticle`/`clicks`, append to their history and broadcast
`opponent_progress` to the room minus the sender. -/
def updateProgress (st : ServerState) (sid roomId currentArticle : String)
    (clicks : Int) : ServerState × List Emit :=
  match lookupA st roomId with
  | none => (st, [])
  | some room =>
    if room.gameState ≠ .playing then (st, [])
    else
      match lookupA room.playerStates sid with
      | none => (st, [])
      | some player =>
        let player' : PlayerState :=
          { player with
              currentArticle := currentArticle
              clicks := clicks
              history := player.history ++ [currentArticle] }
        let room' : Room := { room with playerStates := insertA room.playerStates sid player' }
        (insertA st roomId room',
          [⟨room.players.filter (fun x => x ≠ sid), .opponentProgress sid player.name currentArticle clicks⟩])

/-- The `game_win` handler: no-op unless the room exists and is `playing`;
then it reads `room.playerStates[socket.id].name` WITHOUT a guard — when the
sender holds no entry this dereference of `undefined` throws (`.error`).
On success it broadcasts `player_won` to the whole room and leaves every
room field untouched. -/
def gameWin (st : ServerState) (sid roomId : String) (path : List String) :
    Except String (ServerState × List Emit) :=
  match lookupA st roomId with
  | none => .ok (st, [])
  | some room =>
    if room.gameState ≠ .playing then .ok (st, [])
    else
      match lookupA room.playerStates sid with
      | none => .error "TypeError: Cannot read properties of undefined (reading name)"
      | some player =>
        .ok (st, [⟨room.players, .playerWon sid player.name path⟩])

/-- The `return_to_lobby` handler: if the room exists, set `waiting` and
broadcast `reset_to_lobby`. -/
def returnToLobby (st : ServerState) (roomId : String) : ServerState × List Emit :=
  match lookupA st roomId with
  | none => (st, [])
  | some room =>
    (insertA st roomId { room with gameState := .waiting },
      [⟨room.players, .resetToLobby⟩])

/-- Registry left by the `disconnect` handler: every room containing `sid`
has it filtered out of `players` (its `playerStates` entry is NOT removed),
and a room emptied by this removal is deleted. -/
def disconnectState (st : ServerState) (sid : String) : ServerState :=
  st.filterMap fun p =>
    if sid ∈ p.2.players then
      if (p.2.players.filter (fun x => x ≠ sid)).isEmpty then none
      else some (p.1, { p.2 with players := p.2.players.filter (fun x => x ≠ sid) })
    else some p

/-- Broadcasts emitted by the `disconnect` handler: one `player_left` per
room that contained `sid`, listing the remaining roster. -/
def disconnectEmits (st : ServerState) (sid : String) : List Emit :=
  st.filterMap fun p =>
    if sid ∈ p.2.players then
      some ⟨p.2.players.filter (fun x => x ≠ sid),
        .playerLeft sid ((p.2.players.filter (fun x => x ≠ sid)).map
          (fun pid => (pid, nameOf p.2 pid)))⟩
    else none

/-- The `disconnect` handler. -/
def disconnect (st : ServerState) (sid : String) : ServerState × List Emit :=
  (disconnectState st sid, disconnectEmits st sid)

/-- An inbound event, with all random draws made explicit. -/
inductive Event where
  | createRoom (sid username roomId : String) (i j : Nat)
  | joinRoom (sid roomId username : String) (i j : Nat)
  | startGame (roomId start target : String)
  | updateProgress (sid roomId currentArticle : String) (clicks : Int)
  | gameWin (sid roomId : String) (path : List String)
  | returnToLobby (roomId : String)
  | disconnect (sid : String)
deriving Repr, DecidableEq

/-- The registry after one event is fully processed (a `game_win` that
throws mutates nothing, so its state is the input state). -/
def stepState (st : ServerState) : Event → ServerState
  | .createRoom sid username roomId i j => (createRoom st sid username roomId i j).1
  | .joinRoom sid roomId username i j => (joinRoom st sid roomId username i j).1
  | .startGame roomId start target => (startGame st roomId start target).1
  | .updateProgress sid roomId currentArticle clicks =>
      (updateProgress st sid roomId currentArticle clicks).1
  | .gameWin sid roomId path =>
      match gameWin st sid roomId path with
      | .ok (st', _) => st'
      | .error _ => st
  | .returnToLobby roomId => (returnToLobby st roomId).1
  | .disconnect sid => (disconnectState st sid)

/-- The registry reached from the empty start by a sequence of events. -/
def run (es : List Event) : ServerState :=
  es.foldl stepState []

/-! ### Spec-side definitions and concrete traces -/

/-- Spec-side definition, from the spec words only (for comparison with
`resolveName`): strip the surrounding whitespace of a string. -/
def trimSpec (s : String) : String :=
  ⟨((s.data.dropWhile Char.isWhitespace).reverse.dropWhile Char.isWhitespace).reverse⟩

/-- Spec-side definition, from the spec words only (for comparison with
`resolveName`): "returns the trimmed requested name if non-empty, else" the
generated fallback. -/
def resolveNameSpec (requested gen : String) : String :=
  if trimSpec requested = "" then gen else trimSpec requested

/-- Trace for C1: "a" creates a room, "b" joins it, then "a" disconnects. -/
def esC1 : List Event :=
  [.createRoom "a" "Ann" "R1" 0 0, .joinRoom "b" "R1" "Ben" 1 2, .disconnect "a"]

/-- Trace reaching a two-member waiting room (prefix of `esC1`). -/
def esAB : List Event :=
  [.createRoom "a" "Ann" "R1" 0 0, .joinRoom "b" "R1" "Ben" 1 2]

/-- Trace reaching a two-member `playing` room `RX`. -/
def esPlaying : List Event :=
  [.createRoom "a" "Ann" "RX" 0 0, .joinRoom "b" "RX" "Ben" 1 1,
   .startGame "RX" "S" "T"]

/-- Trace for C8: a started game in which "a" has reported 5 clicks. -/
def esC8 : List Event :=
  [.createRoom "a" "Ann" "R8" 0 0, .joinRoom "b" "R8" "Ben" 1 1,
   .startGame "R8" "S" "T", .updateProgress "a" "R8" "X" 5]

/-- Events that replace the room object wholesale (`create_room` reuses the
code slot) or explicitly send it back to the lobby (`return_to_lobby`);
every other event is expected to keep a `playing` room `playing`. -/
def replacesOrResets : Event → Bool
  | .createRoom .. => true
  | .returnToLobby .. => true
  | _ => false

/-! ### Association-list lemmas -/

theorem lookupA_insertA_self {α : Type} (m : List (String × α)) (k : String) (v : α) :
    lookupA (insertA m k v) k = some v := by
  induction m with
  | nil => simp [insertA, lookupA]
  | cons p rest ih =>
    obtain ⟨k', v'⟩ := p
    by_cases h : k' = k <;> simp [insertA, lookupA, h, ih]

theorem lookupA_insertA_ne {α : Type} (m : List (String × α)) (k k' : String) (v : α)
    (h : k' ≠ k) : lookupA (insertA m k v) k' = lookupA m k' := by
  have hk' : k ≠ k' := Ne.symm h
  induction m with
  | nil => simp [insertA, lookupA, hk']
  | cons p rest ih =>
    obtain ⟨k'', v''⟩ := p
    by_cases hk : k'' = k
    · subst hk
      simp [insertA, lookupA, hk']
    · by_cases h2 : k'' = k'
      · subst h2
        simp [insertA, lookupA, hk, h]
      · simp [insertA, lookupA, hk, h2, ih]

theorem mem_insertA {α : Type} {m : List (String × α)} {k : String} {v : α}
    {p : String × α} (hp : p ∈ insertA m k v) : p = (k, v) ∨ p ∈ m := by
  induction m with
  | nil => simpa [insertA] using hp
  | cons q rest ih =>
    obtain ⟨k', v'⟩ := q
    by_cases h : k' = k
    · simp only [insertA, if_pos h, List.mem_cons] at hp
      rcases hp with hp | hp
      · exact Or.inl hp
      · exact Or.inr (List.mem_cons_of_mem _ hp)
    · simp only [insertA, if_neg h, List.mem_cons] at hp
      rcases hp with hp | hp
      · exact Or.inr (by simp [hp])
      · rcases ih hp with hh | hh
        · exact Or.inl hh
        · exact Or.inr (List.mem_cons_of_mem _ hh)

theorem mem_of_lookupA {α : Type} {m : List (String × α)} {k : String} {v : α}
    (h : lookupA m k = some v) : (k, v) ∈ m := by
  induction m with
  | nil => simp [lookupA] at h
  | cons p rest ih =>
    obtain ⟨k', v'⟩ := p
    by_cases hk : k' = k
    · subst hk
      simp only [lookupA, if_true, eq_self_iff_true, Option.some.injEq] at h
      simp [h]
    · simp only [lookupA, if_neg hk] at h
      exact List.mem_cons_of_mem _ (ih h)

theorem lookupA_eq_none_iff {α : Type} (m : List (String × α)) (k : String) :
    lookupA m k = none ↔ k ∉ m.map Prod.fst := by
  induction m with
  | nil => simp [lookupA]
  | cons p rest ih =>
    obtain ⟨k', v'⟩ := p
    by_cases hk : k' = k
    · subst hk
      simp [lookupA]
    · simp [lookupA, hk, ih, Ne.symm hk]

theorem keys_insertA_of_none {α : Type} {m : List (String × α)} {k : String} (v : α)
    (h : lookupA m k = none) :
    (insertA m k v).map Prod.fst = m.map Prod.fst ++ [k] := by
  induction m with
  | nil => simp [insertA]
  | cons p rest ih =>
    obtain ⟨k', v'⟩ := p
    by_cases hk : k' = k
    · subst hk
      simp [lookupA] at h
    · simp only [lookupA, if_neg hk] at h
      simp [insertA, hk, ih h]

theorem keys_insertA_of_some {α : Type} {m : List (String × α)} {k : String} (v w : α)
    (h : lookupA m k = some w) :
    (insertA m k v).map Prod.fst = m.map Prod.fst := by
  induction m with
  | nil => simp [lookupA] at h
  | cons p rest ih =>
    obtain ⟨k', v'⟩ := p
    by_cases hk : k' = k
    · subst hk
      simp [insertA]
    · simp only [lookupA, if_neg hk] at h
      simp [insertA, hk, ih h]

/-- Key uniqueness for a JS object modelled as an association list. -/
def keysNodup {α : Type} (m : List (String × α)) : Prop :=
  (m.map Prod.fst).Nodup

theorem keysNodup_insertA {α : Type} {m : List (String × α)} (k : String) (v : α)
    (h : keysNodup m) : keysNodup (insertA m k v) := by
  unfold keysNodup at h ⊢
  cases hl : lookupA m k with
  | none =>
    rw [keys_insertA_of_none v hl]
    have hni : k ∉ m.map Prod.fst := (lookupA_eq_none_iff m k).mp hl
    simp [List.nodup_append, h, hni]
  | some w =>
    rw [keys_insertA_of_some v w hl]
    exact h

theorem lookupA_of_mem_nodup {α : Type} {m : List (String × α)} {k : String} {v : α}
    (hnd : keysNodup m) (hmem : (k, v) ∈ m) : lookupA m k = some v := by
  induction m with
  | nil => simp at hmem
  | cons p rest ih =>
    obtain ⟨k', v'⟩ := p
    have hnd' : k' ∉ rest.map Prod.fst ∧ (rest.map Prod.fst).Nodup := by
      simpa [keysNodup] using hnd
    rcases List.mem_cons.mp hmem with hp | hp
    · rw [Prod.mk.injEq] at hp
      obtain ⟨hk, hv⟩ := hp
      simp [lookupA, ← hk, ← hv]
    · by_cases hk : k' = k
      · exact absurd (hk ▸ List.mem_map_of_mem Prod.fst hp) hnd'.1
      · simpa [lookupA, hk] using ih hnd'.2 hp

/-! ### Behaviour of the per-handler building blocks -/

theorem resetPS_idem (start : String) (ps : PlayerState) :
    resetPS start (resetPS start ps) = resetPS start ps := rfl

/-- One `forEach` iteration of the `start_game` reset. -/
theorem lookupA_resetStep (m : List (String × PlayerState)) (start : String)
    (p q : String) :
    lookupA
      (match lookupA m p with
        | some ps => insertA m p (resetPS start ps)
        | none => m) q =
      if q = p then (lookupA m q).map (resetPS start) else lookupA m q := by
  cases hp : lookupA m p with
  | none =>
    by_cases hq : q = p
    · subst hq
      simp [hp]
    · simp [hq]
  | some ps =>
    by_cases hq : q = p
    · subst hq
      simp [hp, lookupA_insertA_self]
    · simp [hq, lookupA_insertA_ne _ _ _ _ hq]

/-- What `start_game`'s reset loop does to each `playerStates` entry:
members are reset (idempotently, even when listed twice), everyone else is
untouched, and no entry is created or deleted. -/
theorem lookupA_resetStates (players : List String) (start : String)
    (m : List (String × PlayerState)) (q : String) :
    lookupA (resetStates players start m) q =
      if q ∈ players then (lookupA m q).map (resetPS start) else lookupA m q := by
  induction players generalizing m with
  | nil => simp [resetStates]
  | cons p rest ih =>
    have hstep := lookupA_resetStep m start p q
    have hfold :
        resetStates (p :: rest) start m =
          resetStates rest start
            (match lookupA m p with
              | some ps => insertA m p (resetPS start ps)
              | none => m) := by
      simp [resetStates, List.foldl_cons]
    rw [hfold, ih]
    by_cases hq : q ∈ rest
    · rw [if_pos hq, hstep]
      by_cases hqp : q = p
      · rw [if_pos hqp, if_pos (by simp [hqp])]
        cases lookupA m q <;> simp [resetPS_idem]
      · rw [if_neg hqp, if_pos (by simp [hq])]
    · rw [if_neg hq, hstep]
      by_cases hqp : q = p
      · rw [if_pos hqp, if_pos (by simp [hqp])]
      · rw [if_neg hqp, if_neg (by simp [hqp, hq])]

/-- Every registry entry surviving a disconnect comes from a pre-disconnect
entry with the same key, the same `playerStates` (no entry is deleted), and
`sid` filtered out of `players`. -/
theorem mem_disconnectState {st : ServerState} {sid : String} {p' : String × Room}
    (hp' : p' ∈ disconnectState st sid) :
    ∃ p ∈ st, p'.1 = p.1 ∧
      p'.2 = { p.2 with players := p.2.players.filter (fun x => x ≠ sid) } := by
  unfold disconnectState at hp'
  rcases List.mem_filterMap.mp hp' with ⟨p, hpmem, hf⟩
  refine ⟨p, hpmem, ?_⟩
  by_cases hin : sid ∈ p.2.players
  · rw [if_pos hin] at hf
    by_cases hemp : (p.2.players.filter (fun x => x ≠ sid)).isEmpty = true
    · rw [if_pos hemp] at hf
      exact absurd hf (by simp)
    · rw [if_neg hemp] at hf
      have hf' := Option.some.inj hf
      subst hf'
      exact ⟨rfl, rfl⟩
  · rw [if_neg hin] at hf
    have hf' := Option.some.inj hf
    subst hf'
    have hfilter : p.2.players.filter (fun x => x ≠ sid) = p.2.players := by
      apply List.filter_eq_self.mpr
      intro a ha
      simp only [decide_eq_true_eq]
      intro haeq
      exact hin (haeq ▸ ha)
    rw [hfilter]
    exact ⟨rfl, rfl⟩

/-- Disconnect never invents keys: its key list is a sublist of the old one. -/
theorem keys_disconnectState_sublist (st : ServerState) (sid : String) :
    ((disconnectState st sid).map Prod.fst).Sublist (st.map Prod.fst) := by
  induction st with
  | nil => simp [disconnectState]
  | cons p rest ih =>
    unfold disconnectState at ih ⊢
    rw [List.filterMap_cons]
    by_cases hin : sid ∈ p.2.players
    · rw [if_pos hin]
      by_cases hemp : (p.2.players.filter (fun x => x ≠ sid)).isEmpty = true
      · rw [if_pos hemp]
        exact ih.trans (List.sublist_cons_self _ _)
      · rw [if_neg hemp]
        simpa using List.Sublist.cons₂ p.1 ih
    · rw [if_neg hin]
      simpa using List.Sublist.cons₂ p.1 ih

theorem keysNodup_disconnectState {st : ServerState} (sid : String)
    (h : keysNodup st) : keysNodup (disconnectState st sid) :=
  List.Nodup.sublist (keys_disconnectState_sublist st sid) h

/-! ### Reachability invariant -/

/-- Well-formedness of one room: every roster member holds a
`playerStates` entry. -/
def roomWF (room : Room) : Prop :=
  ∀ pid ∈ room.players, (lookupA room.playerStates pid).isSome = true

/-- Registry invariant: room codes are unique, every roster member holds a
`playerStates` entry, and no roster exceeds 8 members. -/
def RegistryInv (st : ServerState) : Prop :=
  keysNodup st ∧ ∀ p ∈ st, roomWF p.2 ∧ p.2.players.length ≤ 8

/-- A `game_win` event never changes the registry (it either broadcasts or
throws before any mutation). -/
theorem stepState_gameWin (st : ServerState) (sid roomId : String)
    (path : List String) : stepState st (.gameWin sid roomId path) = st := by
  simp only [stepState, gameWin]
  cases lookupA st roomId with
  | none => rfl
  | some room =>
    by_cases hgs : room.gameState = .playing
    · cases hps : lookupA room.playerStates sid <;> simp [hgs, hps]
    · simp [hgs]

theorem RegistryInv_step {st : ServerState} (hInv : RegistryInv st) (e : Event) :
    RegistryInv (stepState st e) := by
  obtain ⟨hnd, hrooms⟩ := hInv
  cases e with
  | createRoom sid username roomId i j =>
    refine ⟨keysNodup_insertA _ _ hnd, ?_⟩
    intro p hp
    rcases mem_insertA hp with hp | hp
    · subst hp
      refine ⟨?_, by simp⟩
      intro pid hpid
      simp only [List.mem_singleton] at hpid
      subst hpid
      simp [lookupA]
    · exact hrooms p hp
  | joinRoom sid roomId username i j =>
    cases hl : lookupA st roomId with
    | none =>
      simp only [stepState, joinRoom, hl]
      exact ⟨hnd, hrooms⟩
    | some room =>
      simp only [stepState, joinRoom, hl]
      by_cases hgs : room.gameState ≠ .waiting
      · rw [if_pos hgs]
        exact ⟨hnd, hrooms⟩
      · rw [if_neg hgs]
        by_cases hfull : 8 ≤ room.players.length
        · rw [if_pos hfull]
          exact ⟨hnd, hrooms⟩
        · rw [if_neg hfull]
          refine ⟨keysNodup_insertA _ _ hnd, ?_⟩
          intro p hp
          rcases mem_insertA hp with hp | hp
          · subst hp
            have hroom := hrooms (roomId, room) (mem_of_lookupA hl)
            constructor
            · intro pid hpid
              by_cases hps : pid = sid
              · subst hps
                simp [lookupA_insertA_self]
              · rw [lookupA_insertA_ne _ _ _ _ hps]
                rcases List.mem_append.mp hpid with hpid | hpid
                · exact hroom.1 pid hpid
                · exact absurd (List.mem_singleton.mp hpid) hps
            · simp only [List.length_append, List.length_singleton]
              omega
          · exact hrooms p hp
  | startGame roomId start target =>
    cases hl : lookupA st roomId with
    | none =>
      simp only [stepState, startGame, hl]
      exact ⟨hnd, hrooms⟩
    | some room =>
      simp only [stepState, startGame, hl]
      by_cases hlen : room.players.length < 2
      · rw [if_pos hlen]
        exact ⟨hnd, hrooms⟩
      · rw [if_neg hlen]
        refine ⟨keysNodup_insertA _ _ hnd, ?_⟩
        intro p hp
        rcases mem_insertA hp with hp | hp
        · subst hp
          have hroom := hrooms (roomId, room) (mem_of_lookupA hl)
          refine ⟨?_, hroom.2⟩
          intro pid hpid
          rw [lookupA_resetStates, if_pos hpid]
          simpa using hroom.1 pid hpid
        · exact hrooms p hp
  | updateProgress sid roomId currentArticle clicks =>
    cases hl : lookupA st roomId with
    | none =>
      simp only [stepState, updateProgress, hl]
      exact ⟨hnd, hrooms⟩
    | some room =>
      simp only [stepState, updateProgress, hl]
      by_cases hgs : room.gameState ≠ .playing
      · rw [if_pos hgs]
        exact ⟨hnd, hrooms⟩
      · rw [if_neg hgs]
        cases hps : lookupA room.playerStates sid with
        | none =>
          simp only [hps]
          exact ⟨hnd, hrooms⟩
        | some player =>
          simp only [hps]
          refine ⟨keysNodup_insertA _ _ hnd, ?_⟩
          intro p hp
          rcases mem_insertA hp with hp | hp
          · subst hp
            have hroom := hrooms (roomId, room) (mem_of_lookupA hl)
            refine ⟨?_, hroom.2⟩
            intro pid hpid
            by_cases hpsid : pid = sid
            · subst hpsid
              simp [lookupA_insertA_self]
            · rw [lookupA_insertA_ne _ _ _ _ hpsid]
              exact hroom.1 pid hpid
          · exact hrooms p hp
  | gameWin sid roomId path =>
    rw [stepState_gameWin]
    exact ⟨hnd, hrooms⟩
  | returnToLobby roomId =>
    cases hl : lookupA st roomId with
    | none =>
      simp only [stepState, returnToLobby, hl]
      exact ⟨hnd, hrooms⟩
    | some room =>
      simp only [stepState, returnToLobby, hl]
      refine ⟨keysNodup_insertA _ _ hnd, ?_⟩
      intro p hp
      rcases mem_insertA hp with hp | hp
      · subst hp
        exact hrooms (roomId, room) (mem_of_lookupA hl)
      · exact hrooms p hp
  | disconnect sid =>
    refine ⟨keysNodup_disconnectState _ hnd, ?_⟩
    intro p' hp'
    rcases mem_disconnectState hp' with ⟨p, hpmem, hkey, hval⟩
    have hroom := hrooms p hpmem
    rw [hval]
    constructor
    · intro pid hpid
      exact hroom.1 pid (List.mem_of_mem_filter hpid)
    · exact le_trans (List.length_filter_le _ _) hroom.2

theorem RegistryInv_nil : RegistryInv [] :=
  ⟨List.nodup_nil, by intro p hp; simp at hp⟩

theorem RegistryInv_foldl {st : ServerState} (h : RegistryInv st) (es : List Event) :
    RegistryInv (es.foldl stepState st) := by
  induction es generalizing st with
  | nil => exact h
  | cons e rest ih => exact ih (RegistryInv_step h e)

/-- Every reachable registry satisfies the invariant. -/
theorem RegistryInv_run (es : List Event) : RegistryInv (run es) :=
  RegistryInv_foldl RegistryInv_nil es

/-- On a key-unique registry, the room surviving at a code after a
disconnect is the old room with `sid` filtered out of `players` and its
`playerStates` untouched. -/
theorem lookupA_disconnectState_nodup {st : ServerState} {sid R : String}
    {r r' : Room} (hnd : keysNodup st) (hr : lookupA st R = some r)
    (hr' : lookupA (disconnectState st sid) R = some r') :
    r' = { r with players := r.players.filter (fun x => x ≠ sid) } := by
  rcases mem_disconnectState (mem_of_lookupA hr') with ⟨p, hpmem, hkey, hval⟩
  have hkey' : R = p.1 := hkey
  have hlp : lookupA st R = some p.2 := by
    rw [hkey']
    exact lookupA_of_mem_nodup hnd (by simpa using hpmem)
  have hpr : p.2 = r := Option.some.inj (hlp.symm.trans hr)
  rw [← hpr]
  exact hval

/-! ### Handler equations -/

theorem joinRoom_of_none (st : ServerState) (sid roomId u : String) (i j : Nat)
    (hl : lookupA st roomId = none) :
    joinRoom st sid roomId u i j = (st, .error "Room not found", []) := by
  simp only [joinRoom, hl]

theorem joinRoom_of_notWaiting (st : ServerState) (sid roomId u : String)
    (i j : Nat) (room : Room) (hl : lookupA st roomId = some room)
    (hgs : room.gameState ≠ .waiting) :
    joinRoom st sid roomId u i j = (st, .error "Game already started", []) := by
  simp only [joinRoom, hl]
  rw [if_pos hgs]

theorem joinRoom_of_full (st : ServerState) (sid roomId u : String)
    (i j : Nat) (room : Room) (hl : lookupA st roomId = some room)
    (hgs : room.gameState = .waiting) (hfull : 8 ≤ room.players.length) :
    joinRoom st sid roomId u i j = (st, .error "Room is full", []) := by
  simp only [joinRoom, hl]
  rw [if_neg (by simp [hgs]), if_pos hfull]

theorem joinRoom_fst_of_ok (st : ServerState) (sid roomId u : String)
    (i j : Nat) (room : Room) (hl : lookupA st roomId = some room)
    (hgs : room.gameState = .waiting) (hfull : ¬ 8 ≤ room.players.length) :
    (joinRoom st sid roomId u i j).1 =
      insertA st roomId
        { room with
            players := room.players ++ [sid]
            playerStates := insertA room.playerStates sid
              ⟨sid, resolveName u (generateName i j), 0, "", []⟩ } := by
  simp only [joinRoom, hl]
  rw [if_neg (by simp [hgs]), if_neg hfull]

theorem startGame_of_none (st : ServerState) (roomId s t : String)
    (hl : lookupA st roomId = none) : startGame st roomId s t = (st, []) := by
  simp only [startGame, hl]

theorem startGame_of_small (st : ServerState) (roomId s t : String) (room : Room)
    (hl : lookupA st roomId = some room) (hlen : room.players.length < 2) :
    startGame st roomId s t = (st, []) := by
  simp only [startGame, hl]
  rw [if_pos hlen]

theorem startGame_of_ok (st : ServerState) (roomId s t : String) (room : Room)
    (hl : lookupA st roomId = some room) (hlen : ¬ room.players.length < 2) :
    startGame st roomId s t =
      (insertA st roomId
        { room with
            startArticle := some s
            targetArticle := some t
            gameState := .playing
            playerStates := resetStates room.players s room.playerStates },
       [⟨room.players, .gameStarted s t⟩]) := by
  simp only [startGame, hl]
  rw [if_neg hlen]

theorem updateProgress_of_none (st : ServerState) (sid roomId a : String)
    (c : Int) (hl : lookupA st roomId = none) :
    updateProgress st sid roomId a c = (st, []) := by
  simp only [updateProgress, hl]

theorem updateProgress_of_notPlaying (st : ServerState) (sid roomId a : String)
    (c : Int) (room : Room) (hl : lookupA st roomId = some room)
    (hgs : room.gameState ≠ .playing) :
    updateProgress st sid roomId a c = (st, []) := by
  simp only [updateProgress, hl]
  rw [if_pos hgs]

theorem updateProgress_of_noPlayer (st : ServerState) (sid roomId a : String)
    (c : Int) (room : Room) (hl : lookupA st roomId = some room)
    (hgs : room.gameState = .playing)
    (hps : lookupA room.playerStates sid = none) :
    updateProgress st sid roomId a c = (st, []) := by
  simp only [updateProgress, hl]
  rw [if_neg (by simp [hgs])]
  simp only [hps]

theorem updateProgress_of_ok (st : ServerState) (sid roomId a : String)
    (c : Int) (room : Room) (player : PlayerState)
    (hl : lookupA st roomId = some room) (hgs : room.gameState = .playing)
    (hps : lookupA room.playerStates sid = some player) :
    updateProgress st sid roomId a c =
      (insertA st roomId
        { room with
            playerStates := insertA room.playerStates sid
              ⟨player.id, player.name, c, a, player.history ++ [a]⟩ },
       [⟨room.players.filter (fun x => x ≠ sid),
          .opponentProgress sid player.name a c⟩]) := by
  simp only [updateProgress, hl]
  rw [if_neg (by simp [hgs])]
  simp only [hps]

theorem gameWin_of_ok (st : ServerState) (sid roomId : String)
    (path : List String) (room : Room) (player : PlayerState)
    (hl : lookupA st roomId = some room) (hgs : room.gameState = .playing)
    (hps : lookupA room.playerStates sid = some player) :
    gameWin st sid roomId path =
      .ok (st, [⟨room.players, .playerWon sid player.name path⟩]) := by
  simp only [gameWin, hl]
  rw [if_neg (by simp [hgs])]
  simp only [hps]

theorem gameWin_of_noPlayer (st : ServerState) (sid roomId : String)
    (path : List String) (room : Room)
    (hl : lookupA st roomId = some room) (hgs : room.gameState = .playing)
    (hps : lookupA room.playerStates sid = none) :
    gameWin st sid roomId path =
      .error "TypeError: Cannot read properties of undefined (reading name)" := by
  simp only [gameWin, hl]
  rw [if_neg (by simp [hgs])]
  simp only [hps]

theorem get_getD_mem (l : List String) (n : Nat) (h : n < l.length) :
    (l.get? n).getD "" ∈ l := by
  rw [List.get?_eq_get h]
  exact List.get_mem l n h

/-- Shared description of a successful `start_game`: the broadcast to the
whole room plus the fully reset room stored back in the registry. -/
theorem startGame_resets (st : ServerState) (roomId start target : String)
    (room : Room) (hroom : lookupA st roomId = some room)
    (hlen : 2 ≤ room.players.length)
    (hWF : ∀ pid ∈ room.players, (lookupA room.playerStates pid).isSome = true) :
    (startGame st roomId start target).2 =
      [⟨room.players, .gameStarted start target⟩] ∧
    ∃ room', lookupA (startGame st roomId start target).1 roomId = some room' ∧
      room'.gameState = .playing ∧
      room'.startArticle = some start ∧
      room'.targetArticle = some target ∧
      room'.players = room.players ∧
      ∀ pid ∈ room.players, ∃ ps, lookupA room.playerStates pid = some ps ∧
        lookupA room'.playerStates pid = some ⟨ps.id, ps.name, 0, start, [start]⟩ := by
  have hlen' : ¬ room.players.length < 2 := by omega
  rw [startGame_of_ok st roomId start target room hroom hlen']
  refine ⟨rfl, ?_⟩
  refine ⟨_, lookupA_insertA_self _ _ _, rfl, rfl, rfl, rfl, ?_⟩
  intro pid hpid
  obtain ⟨ps, hps⟩ := Option.isSome_iff_exists.mp (hWF pid hpid)
  refine ⟨ps, hps, ?_⟩
  rw [lookupA_resetStates, if_pos hpid, hps]
  rfl

/-! ### C1 -/

/-- **C1, counterexample.** After "a" creates room `R1`, "b" joins and "a"
disconnects, the room's `players` is exactly `["b"]` while the key list of
its `playerStates` is still `["a", "b"]`: the disconnect handler removed
"a" from `players` but did not delete its `PlayerState`, so the claimed
key-set equality fails at a quiescent point. -/
theorem C1_counterexample :
    ((lookupA (run esC1) "R1").map
      (fun r => (r.players, r.playerStates.map Prod.fst))) =
        some (["b"], ["a", "b"]) ∧
    ("a" ∉ (["b"] : List String)) ∧ ("a" ∈ (["a", "b"] : List String)) := by
  decide

/-- **C1 (amended).** At every quiescent point the keys of `playerStates`
form a superset of `players` (every roster member holds an entry, created
on create/join); a disconnect filters the player out of `players` of each
surviving room but leaves every surviving room's `playerStates` untouched,
so stale entries persist until the room itself is deleted. -/
theorem C1_amended (es : List Event) :
    (∀ p ∈ run es, ∀ pid ∈ p.2.players,
        (lookupA p.2.playerStates pid).isSome = true) ∧
    (∀ (sid R : String) (r r' : Room),
        lookupA (run es) R = some r →
        lookupA (disconnectState (run es) sid) R = some r' →
        r'.playerStates = r.playerStates ∧
        r'.players = r.players.filter (fun x => x ≠ sid)) := by
  constructor
  · intro p hp pid hpid
    exact ((RegistryInv_run es).2 p hp).1 pid hpid
  · intro sid R r r' hr hr'
    have h := lookupA_disconnectState_nodup (RegistryInv_run es).1 hr hr'
    rw [h]
    exact ⟨rfl, rfl⟩

/-- Closed instantiation of `C1_amended` on the two-member room reached by
`esAB`, with "b" as the member looked up and "a" as the disconnector. -/
theorem C1_witness :
    (lookupA ([("a", (⟨"a", "Ann", 0, "", []⟩ : PlayerState)),
               ("b", (⟨"b", "Ben", 0, "", []⟩ : PlayerState))]) "b").isSome = true ∧
    ((⟨"R1", ["b"], .waiting, none, none,
        [("a", ⟨"a", "Ann", 0, "", []⟩),
         ("b", ⟨"b", "Ben", 0, "", []⟩)]⟩ : Room).playerStates =
      (⟨"R1", ["a", "b"], .waiting, none, none,
        [("a", ⟨"a", "Ann", 0, "", []⟩),
         ("b", ⟨"b", "Ben", 0, "", []⟩)]⟩ : Room).playerStates ∧
     (⟨"R1", ["b"], .waiting, none, none,
        [("a", ⟨"a", "Ann", 0, "", []⟩),
         ("b", ⟨"b", "Ben", 0, "", []⟩)]⟩ : Room).players =
      (⟨"R1", ["a", "b"], .waiting, none, none,
        [("a", ⟨"a", "Ann", 0, "", []⟩),
         ("b", ⟨"b", "Ben", 0, "", []⟩)]⟩ : Room).players.filter
        (fun x => x ≠ "a")) := by
  constructor
  · exact (C1_amended esAB).1
      ("R1", ⟨"R1", ["a", "b"], .waiting, none, none,
        [("a", ⟨"a", "Ann", 0, "", []⟩), ("b", ⟨"b", "Ben", 0, "", []⟩)]⟩)
      (by decide) "b" (by decide)
  · exact (C1_amended esAB).2 "a" "R1" _ _ (by decide) (by decide)

/-! ### C2 -/

/-- **C2.** A `game_win` from a roster member of a `playing` room returns
the registry unchanged — so `gameState` (still `playing`), `players` and
`playerStates` are untouched — and broadcasts `player_won`, carrying the
winner's id, name and path, to the full `players` list, which contains the
winner; since nothing changes, any number of distinct members can repeat
this within the same round. Moreover no event other than `return_to_lobby`
(or a `create_room` under a colliding code, which replaces the room object
wholesale rather than transitioning it) ever moves a reachable room out of
`playing`. -/
theorem C2_game_win :
    (∀ (st : ServerState) (sid roomId : String) (path : List String)
        (room : Room) (player : PlayerState),
        lookupA st roomId = some room →
        room.gameState = .playing →
        sid ∈ room.players →
        lookupA room.playerStates sid = some player →
        gameWin st sid roomId path =
          .ok (st, [⟨room.players, .playerWon sid player.name path⟩]) ∧
        sid ∈ (⟨room.players, .playerWon sid player.name path⟩ : Emit).recipients) ∧
    (∀ (es : List Event) (e : Event) (R : String) (room room' : Room),
        replacesOrResets e = false →
        lookupA (run es) R = some room →
        room.gameState = .playing →
        lookupA (stepState (run es) e) R = some room' →
        room'.gameState = .playing) := by
  constructor
  · intro st sid roomId path room player hl hgs hmem hps
    exact ⟨gameWin_of_ok st sid roomId path room player hl hgs hps, hmem⟩
  · intro es e R room room' hrr hr hgs hr'
    cases e with
    | createRoom sid u roomId i j => simp [replacesOrResets] at hrr
    | returnToLobby roomId => simp [replacesOrResets] at hrr
    | gameWin sid roomId path =>
      rw [stepState_gameWin, hr] at hr'
      exact (Option.some.inj hr') ▸ hgs
    | disconnect sid =>
      simp only [stepState] at hr'
      have h := lookupA_disconnectState_nodup (RegistryInv_run es).1 hr hr'
      rw [h]
      exact hgs
    | joinRoom sid roomId u i j =>
      simp only [stepState] at hr'
      cases hl : lookupA (run es) roomId with
      | none =>
        rw [congrArg Prod.fst (joinRoom_of_none _ sid roomId u i j hl), hr] at hr'
        exact (Option.some.inj hr') ▸ hgs
      | some room₀ =>
        by_cases hgs₀ : room₀.gameState ≠ .waiting
        · rw [congrArg Prod.fst
            (joinRoom_of_notWaiting _ sid roomId u i j room₀ hl hgs₀), hr] at hr'
          exact (Option.some.inj hr') ▸ hgs
        · have hw : room₀.gameState = .waiting := not_not.mp hgs₀
          by_cases hfull : 8 ≤ room₀.players.length
          · rw [congrArg Prod.fst
              (joinRoom_of_full _ sid roomId u i j room₀ hl hw hfull), hr] at hr'
            exact (Option.some.inj hr') ▸ hgs
          · rw [joinRoom_fst_of_ok _ sid roomId u i j room₀ hl hw hfull] at hr'
            by_cases hR : R = roomId
            · subst hR
              rw [hr] at hl
              have heq : room = room₀ := Option.some.inj hl
              rw [heq, hw] at hgs
              exact absurd hgs (by decide)
            · rw [lookupA_insertA_ne _ _ _ _ hR, hr] at hr'
              exact (Option.some.inj hr') ▸ hgs
    | startGame roomId s t =>
      simp only [stepState] at hr'
      cases hl : lookupA (run es) roomId with
      | none =>
        rw [congrArg Prod.fst (startGame_of_none _ roomId s t hl), hr] at hr'
        exact (Option.some.inj hr') ▸ hgs
      | some room₀ =>
        by_cases hlen : room₀.players.length < 2
        · rw [congrArg Prod.fst
            (startGame_of_small _ roomId s t room₀ hl hlen), hr] at hr'
          exact (Option.some.inj hr') ▸ hgs
        · rw [congrArg Prod.fst (startGame_of_ok _ roomId s t room₀ hl hlen)] at hr'
          by_cases hR : R = roomId
          · subst hR
            rw [lookupA_insertA_self] at hr'
            rw [← Option.some.inj hr']
          · rw [lookupA_insertA_ne _ _ _ _ hR, hr] at hr'
            exact (Option.some.inj hr') ▸ hgs
    | updateProgress sid roomId a c =>
      simp only [stepState] at hr'
      cases hl : lookupA (run es) roomId with
      | none =>
        rw [congrArg Prod.fst (updateProgress_of_none _ sid roomId a c hl), hr] at hr'
        exact (Option.some.inj hr') ▸ hgs
      | some room₀ =>
        by_cases hgs₀ : room₀.gameState = .playing
        · cases hps : lookupA room₀.playerStates sid with
          | none =>
            rw [congrArg Prod.fst
              (updateProgress_of_noPlayer _ sid roomId a c room₀ hl hgs₀ hps), hr] at hr'
            exact (Option.some.inj hr') ▸ hgs
          | some player =>
            rw [congrArg Prod.fst
              (updateProgress_of_ok _ sid roomId a c room₀ player hl hgs₀ hps)] at hr'
            by_cases hR : R = roomId
            · subst hR
              rw [lookupA_insertA_self] at hr'
              rw [← Option.some.inj hr']
              exact hgs₀
            · rw [lookupA_insertA_ne _ _ _ _ hR, hr] at hr'
              exact (Option.some.inj hr') ▸ hgs
        · rw [congrArg Prod.fst
            (updateProgress_of_notPlaying _ sid roomId a c room₀ hl hgs₀), hr] at hr'
          exact (Option.some.inj hr') ▸ hgs

/-- Closed instantiation of `C2_game_win` on the reachable `playing` room
`RX`: a win by "b" broadcasts to both members and a subsequent win event by
"a" leaves the room `playing`. -/
theorem C2_witness :
    (gameWin (run esPlaying) "b" "RX" ["S", "T"] =
      .ok (run esPlaying, [⟨["a", "b"], .playerWon "b" "Ben" ["S", "T"]⟩]) ∧
     "b" ∈ (⟨["a", "b"], .playerWon "b" "Ben" ["S", "T"]⟩ : Emit).recipients) ∧
    (⟨"RX", ["a", "b"], .playing, some "S", some "T",
       [("a", ⟨"a", "Ann", 0, "S", ["S"]⟩),
        ("b", ⟨"b", "Ben", 0, "S", ["S"]⟩)]⟩ : Room).gameState = .playing := by
  constructor
  · exact C2_game_win.1 (run esPlaying) "b" "RX" ["S", "T"]
      ⟨"RX", ["a", "b"], .playing, some "S", some "T",
        [("a", ⟨"a", "Ann", 0, "S", ["S"]⟩), ("b", ⟨"b", "Ben", 0, "S", ["S"]⟩)]⟩
      ⟨"b", "Ben", 0, "S", ["S"]⟩ (by decide) rfl (by decide) (by decide)
  · exact C2_game_win.2 esPlaying (.gameWin "a" "RX" ["S", "T"]) "RX"
      ⟨"RX", ["a", "b"], .playing, some "S", some "T",
        [("a", ⟨"a", "Ann", 0, "S", ["S"]⟩), ("b", ⟨"b", "Ben", 0, "S", ["S"]⟩)]⟩
      _ (by decide) (by decide) rfl (by decide)

/-! ### C3 -/

/-- **C3 (code bug).** From the reachable `playing` room `RX` whose roster
holds only "a" and "b", an `update_progress` sent by the foreign connection
"c" is a silent no-op (guarded by `if (player)`), but a `game_win` sent by
"c" dereferences `room.playerStates[socket.id].name` on `undefined` and
throws instead of being silently ignored. -/
theorem C3_win_from_nonroster_throws :
    updateProgress (run esPlaying) "c" "RX" "A" 1 = (run esPlaying, []) ∧
    gameWin (run esPlaying) "c" "RX" ["S", "T"] =
      .error "TypeError: Cannot read properties of undefined (reading name)" := by
  exact ⟨rfl, rfl⟩

/-! ### C4 -/

/-- **C4.** On a room with at least 2 members, `start_game` — whatever the
members' prior `clicks`, `currentArticle` and `history` — stores the two
articles, sets `playing`, resets every member that holds an entry to
`clicks = 0`, `currentArticle = start`, `history = [start]` (name and id
preserved), and broadcasts the chosen articles to the whole room. -/
theorem C4_start_game (st : ServerState) (roomId start target : String)
    (room : Room) (hroom : lookupA st roomId = some room)
    (hlen : 2 ≤ room.players.length)
    (hWF : ∀ pid ∈ room.players, (lookupA room.playerStates pid).isSome = true) :
    (startGame st roomId start target).2 =
      [⟨room.players, .gameStarted start target⟩] ∧
    ∃ room', lookupA (startGame st roomId start target).1 roomId = some room' ∧
      room'.gameState = .playing ∧
      room'.startArticle = some start ∧
      room'.targetArticle = some target ∧
      room'.players = room.players ∧
      ∀ pid ∈ room.players, ∃ ps, lookupA room.playerStates pid = some ps ∧
        lookupA room'.playerStates pid = some ⟨ps.id, ps.name, 0, start, [start]⟩ :=
  startGame_resets st roomId start target room hroom hlen hWF

/-- Closed instantiation of `C4_start_game` on the two-member waiting room
reached by `esAB`. -/
theorem C4_witness :
    (startGame (run esAB) "R1" "Dog" "Cat").2 =
      [⟨["a", "b"], .gameStarted "Dog" "Cat"⟩] :=
  (C4_start_game (run esAB) "R1" "Dog" "Cat"
    ⟨"R1", ["a", "b"], .waiting, none, none,
      [("a", ⟨"a", "Ann", 0, "", []⟩), ("b", ⟨"b", "Ben", 0, "", []⟩)]⟩
    (by decide) (by decide) (by decide)).1

/-! ### C10 -/

/-- **C10.** The `start_game` handler never inspects `gameState`: on an
existing room with at least 2 members that is already `playing`, it silently
restarts the round — new articles stored, `playing` kept, every member
reset — and broadcasts the new articles, with no error of any kind. -/
theorem C10_start_game_ignores_state (st : ServerState)
    (roomId start target : String) (room : Room)
    (hroom : lookupA st roomId = some room)
    (hplaying : room.gameState = .playing)
    (hlen : 2 ≤ room.players.length)
    (hWF : ∀ pid ∈ room.players, (lookupA room.playerStates pid).isSome = true) :
    (startGame st roomId start target).2 =
      [⟨room.players, .gameStarted start target⟩] ∧
    ∃ room', lookupA (startGame st roomId start target).1 roomId = some room' ∧
      room'.gameState = .playing ∧
      room'.startArticle = some start ∧
      room'.targetArticle = some target ∧
      room'.players = room.players ∧
      ∀ pid ∈ room.players, ∃ ps, lookupA room.playerStates pid = some ps ∧
        lookupA room'.playerStates pid = some ⟨ps.id, ps.name, 0, start, [start]⟩ :=
  startGame_resets st roomId start target room hroom hlen hWF

/-- Closed instantiation of `C10_start_game_ignores_state` on the reachable
room `RX` that is already `playing`. -/
theorem C10_witness :
    (startGame (run esPlaying) "RX" "Dog" "Cat").2 =
      [⟨["a", "b"], .gameStarted "Dog" "Cat"⟩] :=
  (C10_start_game_ignores_state (run esPlaying) "RX" "Dog" "Cat"
    ⟨"RX", ["a", "b"], .playing, some "S", some "T",
      [("a", ⟨"a", "Ann", 0, "S", ["S"]⟩), ("b", ⟨"b", "Ben", 0, "S", ["S"]⟩)]⟩
    (by decide) rfl (by decide) (by decide)).1

/-! ### C5 -/

/-- **C5.** Over every event sequence no room's `players` list ever exceeds
length 8; `join_room` fails with "Room not found" on an unknown code, with
"Game already started" whenever the room is not `waiting` (this check runs
before the capacity check), and with "Room is full" on a full (≥8 members)
waiting room. The three errors are pairwise distinct values returned in the
caller's acknowledgement alone — no broadcast is emitted and the registry
is unchanged in each failure case. -/
theorem C5_join_errors :
    (∀ (es : List Event), ∀ p ∈ run es, p.2.players.length ≤ 8) ∧
    (∀ (st : ServerState) (sid roomId u : String) (i j : Nat),
        lookupA st roomId = none →
        joinRoom st sid roomId u i j = (st, .error "Room not found", [])) ∧
    (∀ (st : ServerState) (sid roomId u : String) (i j : Nat) (room : Room),
        lookupA st roomId = some room → room.gameState ≠ .waiting →
        joinRoom st sid roomId u i j = (st, .error "Game already started", [])) ∧
    (∀ (st : ServerState) (sid roomId u : String) (i j : Nat) (room : Room),
        lookupA st roomId = some room → room.gameState = .waiting →
        8 ≤ room.players.length →
        joinRoom st sid roomId u i j = (st, .error "Room is full", [])) ∧
    (JoinResult.error "Room not found" ≠ JoinResult.error "Game already started" ∧
     JoinResult.error "Room not found" ≠ JoinResult.error "Room is full" ∧
     JoinResult.error "Game already started" ≠ JoinResult.error "Room is full") := by
  refine ⟨?_, joinRoom_of_none, joinRoom_of_notWaiting, joinRoom_of_full, by decide⟩
  intro es p hp
  exact ((RegistryInv_run es).2 p hp).2

/-- Closed instantiation of `C5_join_errors`: the reachable two-member room
is within capacity, and the three rejections fire on an unknown code, on
the reachable `playing` room, and on a full waiting room. -/
theorem C5_witness :
    (⟨"R1", ["a", "b"], .waiting, none, none,
       [("a", ⟨"a", "Ann", 0, "", []⟩),
        ("b", ⟨"b", "Ben", 0, "", []⟩)]⟩ : Room).players.length ≤ 8 ∧
    joinRoom [] "s" "NOPE" "u" 0 0 = ([], .error "Room not found", []) ∧
    joinRoom (run esPlaying) "c" "RX" "u" 0 0 =
      (run esPlaying, .error "Game already started", []) ∧
    joinRoom [("RF", ⟨"RF", ["p1", "p2", "p3", "p4", "p5", "p6", "p7", "p8"],
        .waiting, none, none, []⟩)] "c" "RF" "u" 0 0 =
      ([("RF", ⟨"RF", ["p1", "p2", "p3", "p4", "p5", "p6", "p7", "p8"],
          .waiting, none, none, []⟩)], .error "Room is full", []) := by
  refine ⟨?_, ?_, ?_, ?_⟩
  · exact C5_join_errors.1 esAB ("R1", _) (by decide)
  · exact C5_join_errors.2.1 [] "s" "NOPE" "u" 0 0 (by decide)
  · exact C5_join_errors.2.2.1 (run esPlaying) "c" "RX" "u" 0 0
      ⟨"RX", ["a", "b"], .playing, some "S", some "T",
        [("a", ⟨"a", "Ann", 0, "S", ["S"]⟩), ("b", ⟨"b", "Ben", 0, "S", ["S"]⟩)]⟩
      (by decide) (by decide)
  · exact C5_join_errors.2.2.2.1 _ "c" "RF" "u" 0 0
      ⟨"RF", ["p1", "p2", "p3", "p4", "p5", "p6", "p7", "p8"],
        .waiting, none, none, []⟩ (by decide) rfl (by decide)

/-! ### C6 -/

/-- **C6.** A progress report from a roster member of a `playing` room
overwrites that member's `currentArticle` and `clicks`, appends the article
to their `history`, and emits exactly one `opponent_progress` broadcast
carrying the sender's id, name, article and clicks, whose recipients are
all current members except the sender (never the sender). When the room is
absent or not `playing`, nothing is mutated and nothing is emitted. -/
theorem C6_update_progress :
    (∀ (st : ServerState) (sid roomId a : String) (c : Int) (room : Room)
        (player : PlayerState),
        lookupA st roomId = some room →
        room.gameState = .playing →
        sid ∈ room.players →
        lookupA room.playerStates sid = some player →
        (updateProgress st sid roomId a c).2 =
          [⟨room.players.filter (fun x => x ≠ sid),
             .opponentProgress sid player.name a c⟩] ∧
        sid ∉ room.players.filter (fun x => x ≠ sid) ∧
        (∀ m ∈ room.players, m ≠ sid →
            m ∈ room.players.filter (fun x => x ≠ sid)) ∧
        ∃ room', lookupA (updateProgress st sid roomId a c).1 roomId = some room' ∧
          room'.players = room.players ∧
          room'.gameState = room.gameState ∧
          lookupA room'.playerStates sid =
            some ⟨player.id, player.name, c, a, player.history ++ [a]⟩) ∧
    (∀ (st : ServerState) (sid roomId a : String) (c : Int),
        lookupA st roomId = none → updateProgress st sid roomId a c = (st, [])) ∧
    (∀ (st : ServerState) (sid roomId a : String) (c : Int) (room : Room),
        lookupA st roomId = some room → room.gameState ≠ .playing →
        updateProgress st sid roomId a c = (st, [])) := by
  refine ⟨?_, updateProgress_of_none, updateProgress_of_notPlaying⟩
  intro st sid roomId a c room player hl hgs hmem hps
  rw [updateProgress_of_ok st sid roomId a c room player hl hgs hps]
  refine ⟨rfl, ?_, ?_, ?_⟩
  · intro hc
    have hfalse := (List.mem_filter.mp hc).2
    simp at hfalse
  · intro m hm hne
    exact List.mem_filter.mpr ⟨hm, by simp [hne]⟩
  · exact ⟨_, lookupA_insertA_self _ _ _, rfl, rfl, lookupA_insertA_self _ _ _⟩

/-- Closed instantiation of `C6_update_progress` on the reachable `playing`
room `RX` (progress by "b" reaches only "a") and the two silent branches. -/
theorem C6_witness :
    ((updateProgress (run esPlaying) "b" "RX" "Cat" 1).2 =
      [⟨["a"], .opponentProgress "b" "Ben" "Cat" 1⟩]) ∧
    updateProgress [] "b" "NOPE" "Cat" 1 = ([], []) ∧
    updateProgress (run esAB) "b" "R1" "Cat" 1 = (run esAB, []) := by
  refine ⟨?_, ?_, ?_⟩
  · exact (C6_update_progress.1 (run esPlaying) "b" "RX" "Cat" 1
      ⟨"RX", ["a", "b"], .playing, some "S", some "T",
        [("a", ⟨"a", "Ann", 0, "S", ["S"]⟩), ("b", ⟨"b", "Ben", 0, "S", ["S"]⟩)]⟩
      ⟨"b", "Ben", 0, "S", ["S"]⟩ (by decide) rfl (by decide) (by decide)).1
  · exact C6_update_progress.2.1 [] "b" "NOPE" "Cat" 1 (by decide)
  · exact C6_update_progress.2.2 (run esAB) "b" "R1" "Cat" 1
      ⟨"R1", ["a", "b"], .waiting, none, none,
        [("a", ⟨"a", "Ann", 0, "", []⟩), ("b", ⟨"b", "Ben", 0, "", []⟩)]⟩
      (by decide) (by decide)

/-! ### C7 -/

/-- **C7, counterexample.** The handlers evaluate `username ||
generateName()` with no trimming: creating a room with the requested name
" Bob " stores " Bob " verbatim (the claim requires the trimmed "Bob"),
and the whitespace-only request " " — whose trim is empty, so the claim
requires a generated adjective-animal name — is also stored verbatim
instead of the generated "Neon Fox". -/
theorem C7_counterexample :
    ((lookupA ((createRoom [] "s1" " Bob " "R1" 0 0).1) "R1").bind
      (fun r => (lookupA r.playerStates "s1").map PlayerState.name)) =
        some " Bob " ∧
    resolveNameSpec " Bob " (generateName 0 0) = "Bob" ∧
    (" Bob " : String) ≠ "Bob" ∧
    ((lookupA ((createRoom [] "s2" " " "R2" 0 0).1) "R2").bind
      (fun r => (lookupA r.playerStates "s2").map PlayerState.name)) =
        some " " ∧
    resolveNameSpec " " (generateName 0 0) = "Neon Fox" ∧
    (" " : String) ≠ "Neon Fox" := by
  decide

/-- **C7 (amended).** The stored display name is the requested username
kept verbatim (no trimming) whenever it is a non-empty string — even a
whitespace-only one — and only the empty string falls back to the
generated name, which always pairs one entry of the 10-element adjective
vocabulary with one entry of the 10-element animal vocabulary. This holds
on `create_room` and on a successful `join_room`. -/
theorem C7_amended_names :
    (∀ (st : ServerState) (sid u roomId : String) (i j : Nat),
        (lookupA ((createRoom st sid u roomId i j).1) roomId).bind
            (fun r => (lookupA r.playerStates sid).map PlayerState.name) =
          some (resolveName u (generateName i j))) ∧
    (∀ (st : ServerState) (sid roomId u : String) (i j : Nat) (room : Room),
        lookupA st roomId = some room →
        room.gameState = .waiting →
        ¬ 8 ≤ room.players.length →
        (lookupA ((joinRoom st sid roomId u i j).1) roomId).bind
            (fun r => (lookupA r.playerStates sid).map PlayerState.name) =
          some (resolveName u (generateName i j))) ∧
    (∀ u g : String, u ≠ "" → resolveName u g = u) ∧
    (∀ u g : String, u = "" → resolveName u g = g) ∧
    (∀ i j : Nat, ∃ a ∈ ADJECTIVES, ∃ b ∈ ANIMALS,
        generateName i j = a ++ " " ++ b) ∧
    ADJECTIVES.length = 10 ∧ ANIMALS.length = 10 := by
  refine ⟨?_, ?_, ?_, ?_, ?_, rfl, rfl⟩
  · intro st sid u roomId i j
    simp only [createRoom]
    rw [lookupA_insertA_self]
    simp [lookupA]
  · intro st sid roomId u i j room hl hw hfull
    rw [joinRoom_fst_of_ok st sid roomId u i j room hl hw hfull]
    rw [lookupA_insertA_self]
    simp [lookupA_insertA_self]
  · intro u g hu
    simp [resolveName, hu]
  · intro u g hu
    simp [resolveName, hu]
  · intro i j
    exact ⟨(ADJECTIVES.get? (i % ADJECTIVES.length)).getD "",
      get_getD_mem _ _ (Nat.mod_lt _ (by decide)),
      (ANIMALS.get? (j % ANIMALS.length)).getD "",
      get_getD_mem _ _ (Nat.mod_lt _ (by decide)), rfl⟩

/-- Closed instantiation of `C7_amended_names`: a non-empty name is kept
verbatim on create and the empty name falls back to the generated one on
join into the reachable waiting room. -/
theorem C7_witness :
    ((lookupA ((createRoom [] "s1" "Zoe" "R1" 2 3).1) "R1").bind
      (fun r => (lookupA r.playerStates "s1").map PlayerState.name) =
        some (resolveName "Zoe" (generateName 2 3))) ∧
    ((lookupA ((joinRoom (run esAB) "c" "R1" "" 2 3).1) "R1").bind
      (fun r => (lookupA r.playerStates "c").map PlayerState.name) =
        some (resolveName "" (generateName 2 3))) ∧
    resolveName "Zoe" "Mega Owl" = "Zoe" ∧
    resolveName "" "Mega Owl" = "Mega Owl" := by
  refine ⟨C7_amended_names.1 [] "s1" "Zoe" "R1" 2 3, ?_, ?_, ?_⟩
  · exact C7_amended_names.2.1 (run esAB) "c" "R1" "" 2 3
      ⟨"R1", ["a", "b"], .waiting, none, none,
        [("a", ⟨"a", "Ann", 0, "", []⟩), ("b", ⟨"b", "Ben", 0, "", []⟩)]⟩
      (by decide) rfl (by decide)
  · exact C7_amended_names.2.2.1 "Zoe" "Mega Owl" (by decide)
  · exact C7_amended_names.2.2.2.1 "" "Mega Owl" rfl

/-! ### C8 -/

/-- **C8, counterexample.** In the reachable round of `esC8`, "a" has
reported 5 clicks; a later report of 3 clicks is stored as 3 (a strict
decrease within the same round), and a report of -1 clicks is stored as a
negative value — the server applies no monotonicity or sign constraint. -/
theorem C8_counterexample :
    ((lookupA (run esC8) "R8").bind
      (fun r => (lookupA r.playerStates "a").map PlayerState.clicks)) =
        some 5 ∧
    ((lookupA (run (esC8 ++ [.updateProgress "a" "R8" "Y" 3])) "R8").bind
      (fun r => (lookupA r.playerStates "a").map PlayerState.clicks)) =
        some 3 ∧
    ¬ (5 : Int) ≤ 3 ∧
    ((lookupA (run (esC8 ++ [.updateProgress "a" "R8" "Z" (-1)])) "R8").bind
      (fun r => (lookupA r.playerStates "a").map PlayerState.clicks)) =
        some (-1) ∧
    (-1 : Int) < 0 := by
  decide

/-- **C8 (amended).** `clicks` is reset to 0 for every member when a round
starts, and after each accepted progress report it equals exactly the
client-reported value, whatever it is — the server enforces neither
non-negativity nor monotonicity within a round. -/
theorem C8_amended_clicks :
    (∀ (st : ServerState) (sid roomId a : String) (c : Int) (room : Room)
        (player : PlayerState),
        lookupA st roomId = some room →
        room.gameState = .playing →
        lookupA room.playerStates sid = some player →
        (lookupA ((updateProgress st sid roomId a c).1) roomId).bind
            (fun r => (lookupA r.playerStates sid).map PlayerState.clicks) =
          some c) ∧
    (∀ (st : ServerState) (roomId s t : String) (room : Room) (pid : String),
        lookupA st roomId = some room →
        2 ≤ room.players.length →
        pid ∈ room.players →
        (lookupA room.playerStates pid).isSome = true →
        (lookupA ((startGame st roomId s t).1) roomId).bind
            (fun r => (lookupA r.playerStates pid).map PlayerState.clicks) =
          some 0) := by
  constructor
  · intro st sid roomId a c room player hl hgs hps
    rw [congrArg Prod.fst (updateProgress_of_ok st sid roomId a c room player hl hgs hps)]
    rw [lookupA_insertA_self]
    simp [lookupA_insertA_self]
  · intro st roomId s t room pid hl hlen hmem hsome
    rw [congrArg Prod.fst (startGame_of_ok st roomId s t room hl (by omega))]
    rw [lookupA_insertA_self]
    obtain ⟨ps, hps⟩ := Option.isSome_iff_exists.mp hsome
    simp [lookupA_resetStates, hmem, hps, resetPS]

/-- Closed instantiation of `C8_amended_clicks`: a report of 7 clicks by
"b" is stored as 7, and restarting the round resets "a" to 0. -/
theorem C8_witness :
    ((lookupA ((updateProgress (run esPlaying) "b" "RX" "Cat" 7).1) "RX").bind
      (fun r => (lookupA r.playerStates "b").map PlayerState.clicks) =
        some 7) ∧
    ((lookupA ((startGame (run esAB) "R1" "Dog" "Cat").1) "R1").bind
      (fun r => (lookupA r.playerStates "a").map PlayerState.clicks) =
        some 0) := by
  constructor
  · exact C8_amended_clicks.1 (run esPlaying) "b" "RX" "Cat" 7
      ⟨"RX", ["a", "b"], .playing, some "S", some "T",
        [("a", ⟨"a", "Ann", 0, "S", ["S"]⟩), ("b", ⟨"b", "Ben", 0, "S", ["S"]⟩)]⟩
      ⟨"b", "Ben", 0, "S", ["S"]⟩ (by decide) rfl (by decide)
  · exact C8_amended_clicks.2 (run esAB) "R1" "Dog" "Cat"
      ⟨"R1", ["a", "b"], .waiting, none, none,
        [("a", ⟨"a", "Ann", 0, "", []⟩), ("b", ⟨"b", "Ben", 0, "", []⟩)]⟩
      "a" (by decide) (by decide) (by decide) (by decide)

/-! ### C9 -/

/-- **C9, counterexample.** The same connection "a" creates two rooms in a
row and ends up in the `players` list of both `R1` and `R2` at a quiescent
point: neither `create_room` nor `join_room` checks or removes existing
memberships. -/
theorem C9_counterexample :
    ((lookupA (run [.createRoom "a" "Ann" "R1" 0 0,
        .createRoom "a" "Ann" "R2" 0 0]) "R1").map Room.players) = some ["a"] ∧
    ((lookupA (run [.createRoom "a" "Ann" "R1" 0 0,
        .createRoom "a" "Ann" "R2" 0 0]) "R2").map Room.players) = some ["a"] ∧
    ("R1" : String) ≠ "R2" := by
  decide

/-- **C9 (amended).** `create_room` and `join_room` leave every room other
than the targeted code untouched: a connection already listed in another
room keeps that membership, so one connection can accumulate memberships
in several rooms. -/
theorem C9_amended_other_rooms_untouched :
    (∀ (st : ServerState) (sid u roomId : String) (i j : Nat) (R : String),
        R ≠ roomId →
        lookupA ((createRoom st sid u roomId i j).1) R = lookupA st R) ∧
    (∀ (st : ServerState) (sid roomId u : String) (i j : Nat) (R : String),
        R ≠ roomId →
        lookupA ((joinRoom st sid roomId u i j).1) R = lookupA st R) := by
  constructor
  · intro st sid u roomId i j R hR
    simp only [createRoom]
    exact lookupA_insertA_ne st roomId R _ hR
  · intro st sid roomId u i j R hR
    cases hl : lookupA st roomId with
    | none => rw [congrArg Prod.fst (joinRoom_of_none st sid roomId u i j hl)]
    | some room =>
      by_cases hgs : room.gameState ≠ .waiting
      · rw [congrArg Prod.fst (joinRoom_of_notWaiting st sid roomId u i j room hl hgs)]
      · have hw := not_not.mp hgs
        by_cases hfull : 8 ≤ room.players.length
        · rw [congrArg Prod.fst (joinRoom_of_full st sid roomId u i j room hl hw hfull)]
        · rw [joinRoom_fst_of_ok st sid roomId u i j room hl hw hfull]
          exact lookupA_insertA_ne _ _ _ _ hR

/-- Closed instantiation of `C9_amended_other_rooms_untouched`: creating
`R2` and joining `R1` both leave the lookup of an unrelated code
unchanged. -/
theorem C9_witness :
    lookupA ((createRoom (run esAB) "a" "Ann" "R2" 0 0).1) "R1" =
      lookupA (run esAB) "R1" ∧
    lookupA ((joinRoom (run esAB) "c" "R1" "Cam" 0 0).1) "ZZ" =
      lookupA (run esAB) "ZZ" :=
  ⟨C9_amended_other_rooms_untouched.1 (run esAB) "a" "Ann" "R2" 0 0 "R1" (by decide),
   C9_amended_other_rooms_untouched.2 (run esAB) "c" "R1" "Cam" 0 0 "ZZ" (by decide)⟩
